import Mathlib

/-!
Verification of the transcript alignment and document-rendering pipeline of the
Bot3 repository (src/core/utils.py, src/core/transcription.py,
src/core/pdf_generation.py, src/core/reports.py).

The Python code is shallowly embedded: strings are `List Char`, every function
is a total executable Lean function translated from the source.  Python code
that can raise is modelled with `Except`; functions whose bodies cannot raise
for string inputs (they only perform string operations and regex substitution,
with every internal `try` catching into a pure fallback) are modelled as total
functions, which encodes their never-raising behaviour.

Regex substitutions from the source are embedded as explicit left-to-right
scanners with the same matching semantics (leftmost match, non-greedy where the
pattern is non-greedy, continue after the match).  Case-insensitive matching of
the ASCII pattern literals is modelled by ASCII lowercasing, and `\d` by the
ASCII digits; the pattern literals in the source are ASCII-only.
-/

set_option maxRecDepth 65536

namespace Bot3

/-- Convert a Lean string literal to the `List Char` representation used
throughout the embedding. -/
def chars (s : String) : List Char := s.toList

/-- The set of characters matched by Python's `str.isspace`, `str.strip()` and
the regex class `\s` (Unicode whitespace). -/
def pyIsSpace (c : Char) : Bool :=
  [9, 10, 11, 12, 13, 28, 29, 30, 31, 32, 133, 160, 5760,
   8192, 8193, 8194, 8195, 8196, 8197, 8198, 8199, 8200, 8201, 8202,
   8232, 8233, 8239, 8287, 12288].contains c.toNat

/-- ASCII lowercasing, modelling the case-insensitive matching of the
ASCII-only pattern literals and `str.lower()` on the ASCII messages. -/
def pyLower (c : Char) : Char :=
  if 65 ≤ c.toNat ∧ c.toNat ≤ 90 then Char.ofNat (c.toNat + 32) else c

/-- Python `str.strip()`: drop whitespace from both ends. -/
def pyStrip (l : List Char) : List Char :=
  ((l.dropWhile pyIsSpace).reverse.dropWhile pyIsSpace).reverse

/-- Python `str.split('\n')`: split on every newline, keeping empty pieces. -/
def splitNL : List Char → List (List Char)
  | [] => [[]]
  | c :: t =>
    if c = '\n' then [] :: splitNL t
    else
      match splitNL t with
      | [] => [[c]]
      | h :: r => (c :: h) :: r

/-- Whether `p` is a prefix of `l` (Python `str.startswith`). -/
def pyStartsWith : List Char → List Char → Bool
  | [], _ => true
  | _ :: _, [] => false
  | a :: p, b :: l => a == b && pyStartsWith p l

/-- Python `str.startswith` with a tuple of prefixes. -/
def startsWithAny (l : List Char) (ps : List (List Char)) : Bool :=
  ps.any (fun p => pyStartsWith p l)

/-- Python `str.endswith` with a tuple of suffixes. -/
def endsWithAny (l : List Char) (ps : List (List Char)) : Bool :=
  ps.any (fun p => pyStartsWith p.reverse l.reverse)

/-- Python `needle in haystack` substring test. -/
def listContains : List Char → List Char → Bool
  | [], p => p == []
  | c :: t, p => pyStartsWith p (c :: t) || listContains t p

/-- Python `' '.join(parts)`. -/
def joinSpaces : List (List Char) → List Char
  | [] => []
  | [x] => x
  | x :: y :: r => x ++ ' ' :: joinSpaces (y :: r)

/-- Python `str.split()` (split on whitespace runs, dropping empties);
`acc` holds the reversed current token. -/
def wsSplitAux : List Char → List Char → List (List Char)
  | [], acc => if acc = [] then [] else [acc.reverse]
  | c :: t, acc =>
    if pyIsSpace c then
      if acc = [] then wsSplitAux t [] else acc.reverse :: wsSplitAux t []
    else wsSplitAux t (c :: acc)

/-- Python `len(line.split())`: the whitespace-delimited tokens of a line. -/
def pyTokens (l : List Char) : List (List Char) := wsSplitAux l []

/-- The sentinel segment of `parse_segments` (src/core/utils.py line 157). -/
def noContent : List Char := chars "No content available."

/-- The marker prefixes that open a new segment (src/core/utils.py line 167). -/
def segmentMarkers : List (List Char) :=
  [chars "Teacher:", chars "Student:", chars "Observer:", chars "<Music>"]

/-- The loop body of `parse_segments` (src/core/utils.py lines 159-175):
`segs` is the emitted segments so far, `cur` the open segment's lines. -/
def segLoop : List (List Char) → List (List Char) → List (List Char) → List (List Char)
  | [], segs, cur => if cur = [] then segs else segs ++ [joinSpaces cur]
  | line :: rest, segs, cur =>
    let l := pyStrip line
    if l = [] then segLoop rest segs cur
    else if startsWithAny l segmentMarkers then
      segLoop rest (if cur = [] then segs else segs ++ [joinSpaces cur]) [l]
    else segLoop rest segs (cur ++ [l])

/-- `parse_segments` (src/core/utils.py lines 154-177). -/
def parse_segments (text : List Char) : List (List Char) :=
  if text = [] ∨ pyStrip text = [] then [noContent]
  else
    let segments := segLoop (splitNL text) [] []
    if segments = [] then [noContent] else segments

/-- The result of the `segLoop` branches is never empty unless both inputs
start empty, but `parse_segments` re-checks emptiness anyway; totality of the
final guard is all C1 needs. -/
theorem parse_segments_ne_nil (text : List Char) : parse_segments text ≠ [] := by
  unfold parse_segments
  split
  · simp [noContent]
  · simp only []
    split
    · simp [noContent]
    · assumption

/-! ### Fueled scanners for the regex substitutions

Each `re.sub` / `str.replace` of the source is a left-to-right scanner.  The
scanners recurse on a fuel argument (an upper bound on the input length) so
that they stay structurally recursive and reduce inside the kernel; the
wrappers supply `length + 1` as fuel, which the fuel lemmas show is enough. -/

/-- One fueled step list of Python `str.replace(pat, rep)` for a non-empty
pattern `pat`: leftmost non-overlapping replacement. -/
def replaceAllF (pat rep : List Char) : Nat → List Char → List Char
  | 0, l => l
  | _ + 1, [] => []
  | fuel + 1, c :: t =>
    if pyStartsWith pat (c :: t) then
      rep ++ replaceAllF pat rep fuel ((c :: t).drop pat.length)
    else c :: replaceAllF pat rep fuel t

/-- Python `str.replace(pat, rep)` (for the non-empty patterns the source
uses). -/
def replaceAll (l pat rep : List Char) : List Char :=
  replaceAllF pat rep (l.length + 1) l

/-- Whether `re.sub(r"(\S{60})(?=\S)", ...)` matches at the head of `l`:
61 consecutive non-whitespace characters (60 matched plus the lookahead). -/
def matchAt60 (l : List Char) : Bool :=
  (l.take 61).length == 61 && (l.take 61).all (fun c => !pyIsSpace c)

/-- Fueled scanner for `re.sub(r"(\S{60})(?=\S)", r"\1 ", text)`
(src/core/utils.py line 119): insert a space after every run of 60
non-whitespace characters that is followed by another non-whitespace one. -/
def breakRunsF : Nat → List Char → List Char
  | 0, l => l
  | _ + 1, [] => []
  | fuel + 1, c :: t =>
    if matchAt60 (c :: t) then
      (c :: t).take 60 ++ ' ' :: breakRunsF fuel ((c :: t).drop 60)
    else c :: breakRunsF fuel t

/-- The soft-break insertion of `sanitize_text_for_pdf`. -/
def breakRuns (l : List Char) : List Char := breakRunsF (l.length + 1) l

/-- ASCII digit test, modelling `\d` for the timestamp pattern. -/
def pyIsDigit (c : Char) : Bool := 48 ≤ c.toNat && c.toNat ≤ 57

/-- Head match of `\[\d{2}:\d{2}\]\s*`: on success returns the rest of the
input after the bracketed timestamp and the greedy whitespace run. -/
def tsHeadMatch : List Char → Option (List Char)
  | '[' :: a :: b :: ':' :: c :: d :: ']' :: rest =>
    if pyIsDigit a && pyIsDigit b && pyIsDigit c && pyIsDigit d then
      some (rest.dropWhile pyIsSpace)
    else none
  | _ => none

/-- Fueled scanner for `re.sub(r'\[\d{2}:\d{2}\]\s*', '', text)`
(src/core/utils.py line 150). -/
def removeTsF : Nat → List Char → List Char
  | 0, l => l
  | _ + 1, [] => []
  | fuel + 1, c :: t =>
    match tsHeadMatch (c :: t) with
    | some rest => removeTsF fuel rest
    | none => c :: removeTsF fuel t

/-- `remove_timestamps` (src/core/utils.py lines 146-150). -/
def remove_timestamps (text : List Char) : List Char :=
  if text = [] then [] else removeTsF (text.length + 1) text

/-- Case-insensitive (ASCII) test that `pat` (already lowercase) starts `l`. -/
def ciStarts (pat l : List Char) : Bool :=
  (l.take pat.length).map pyLower == pat

/-- Drop through the first case-insensitive occurrence of `pat` in `l`,
returning what follows it; `none` when `pat` does not occur. -/
def dropThroughCI (pat : List Char) : List Char → Option (List Char)
  | [] => if pat = [] then some [] else none
  | c :: t =>
    if ciStarts pat (c :: t) then some ((c :: t).drop pat.length)
    else dropThroughCI pat t

/-- Fueled scanner for `re.sub(pre + '.*?' + suf, '', text, IGNORECASE|DOTALL)`
with ASCII literals `pre` (non-empty) and `suf`: at each position, if `pre`
matches and `suf` occurs anywhere later, delete through the first such `suf`
and continue after it; otherwise emit the character and move on. -/
def subPreF (pre suf : List Char) : Nat → List Char → List Char
  | 0, l => l
  | _ + 1, [] => []
  | fuel + 1, c :: t =>
    if ciStarts pre (c :: t) then
      match dropThroughCI suf ((c :: t).drop pre.length) with
      | some rest => subPreF pre suf fuel rest
      | none => c :: subPreF pre suf fuel t
    else c :: subPreF pre suf fuel t

/-- One preamble-removal substitution of `clean_transcription`. -/
def subPre (pre suf l : List Char) : List Char :=
  subPreF pre suf (l.length + 1) l

/-- `clean_transcription` (src/core/utils.py lines 135-143). -/
def clean_transcription (text : List Char) : List Char :=
  if text = [] then []
  else
    pyStrip (subPre (chars "here is the transcription") (chars ":")
      (subPre (chars "i will transcribe") (chars "file:")
        (subPre (chars "thank you for providing") (chars "file:") text)))

/-! ### sanitize_text_for_pdf -/

/-- The replacement table of `sanitize_text_for_pdf`
(src/core/utils.py lines 68-111), in source (= Python dict iteration) order. -/
def replacementDict : List (Char × List Char) :=
  [(Char.ofNat 0x2014, chars "-"), (Char.ofNat 0x2013, chars "-"),
   (Char.ofNat 0x2012, chars "-"), (Char.ofNat 0x2011, chars "-"),
   (Char.ofNat 0x2018, chars "'"), (Char.ofNat 0x2019, chars "'"),
   (Char.ofNat 0x201A, chars "'"), (Char.ofNat 0x201B, chars "'"),
   (Char.ofNat 0x201C, chars "\""), (Char.ofNat 0x201D, chars "\""),
   (Char.ofNat 0x201E, chars "\""), (Char.ofNat 0x201F, chars "\""),
   (Char.ofNat 0x2039, chars "'"), (Char.ofNat 0x203A, chars "'"),
   (Char.ofNat 0x2026, chars "..."), (Char.ofNat 0x2022, chars "-"),
   (Char.ofNat 0x2023, chars "-"), (Char.ofNat 0x2043, chars "-"),
   (Char.ofNat 0x00B7, chars "-"), (Char.ofNat 0x00A0, chars " "),
   (Char.ofNat 0x202F, chars " "), (Char.ofNat 0x2002, chars " "),
   (Char.ofNat 0x2003, chars " "), (Char.ofNat 0x2009, chars " "),
   (Char.ofNat 0x00D7, chars "x"), (Char.ofNat 0x00F7, chars "/"),
   (Char.ofNat 0x2212, chars "-"), (Char.ofNat 0x2260, chars "!="),
   (Char.ofNat 0x2264, chars "<="), (Char.ofNat 0x2265, chars ">="),
   (Char.ofNat 0x20AC, chars "EUR"), (Char.ofNat 0x00A3, chars "GBP"),
   (Char.ofNat 0x00A5, chars "YEN")]

/-- The `for src, dst in replacements.items(): text = text.replace(src, dst)`
loop (src/core/utils.py lines 114-115). -/
def applyReplacements (l : List Char) : List Char :=
  replacementDict.foldl (fun acc p => replaceAll acc [p.1] p.2) l

/-- `text.encode("latin-1", "ignore").decode("latin-1")`: drop every character
whose code point is at least 256 (the `except` branch of the source performs
the identical filter, so the operation never raises). -/
def latin1Filter (l : List Char) : List Char :=
  l.filter (fun c => decide (c.toNat < 256))

/-- `text.replace("\r\n", "\n").replace("\r", "\n")`
(src/core/utils.py line 129). -/
def normEOL (l : List Char) : List Char :=
  (replaceAll l [Char.ofNat 13, '\n'] ['\n']).map
    (fun c => if c = Char.ofNat 13 then '\n' else c)

/-- `sanitize_text_for_pdf` (src/core/utils.py lines 59-131). -/
def sanitize_text_for_pdf (text : List Char) : List Char :=
  if text = [] then []
  else normEOL (latin1Filter (breakRuns (applyReplacements text)))

/-! ### Validation -/

/-- Fueled decimal digits of a natural number (Python `f"{len(text)}"`). -/
def natDecimalF : Nat → Nat → List Char
  | 0, _ => []
  | fuel + 1, n =>
    if n < 10 then [Char.ofNat (48 + n)]
    else natDecimalF fuel (n / 10) ++ [Char.ofNat (48 + n % 10)]

/-- Decimal representation of a natural number. -/
def natDecimal (n : Nat) : List Char := natDecimalF (n + 1) n

/-- `validate_text_content` (src/core/utils.py lines 5-23).  The
`isinstance(text, str)` branch is unreachable in the string-typed embedding. -/
def validate_text_content (text field : List Char) : Bool × List Char :=
  if text = [] then (false, field ++ chars " is empty or None")
  else if pyStrip text = [] then (false, field ++ chars " contains only whitespace")
  else if 500000 < text.length then
    (false, field ++ chars " is too long (" ++ natDecimal text.length ++
      chars " chars). Maximum is 500,000 characters.")
  else (true, [])

/-- `validate_pdf_inputs` (src/core/utils.py lines 26-55).  The name
`isinstance` checks always pass for string-typed inputs, and the sanitize
test cycle cannot raise (sanitization is total), so only its emptiness check
remains. -/
def validate_pdf_inputs (report_text teacher_name observer_name date_time : List Char) :
    Bool × List Char :=
  match validate_text_content report_text (chars "Report text") with
  | (false, error) => (false, chars "Report validation failed: " ++ error)
  | (true, _) =>
    if date_time = [] then (false, chars "Date/time must be a non-empty string")
    else if sanitize_text_for_pdf (report_text.take 1000) = [] then
      (false, chars "Text sanitization produced empty result")
    else (true, [])

/-! ### Alignment engine -/

/-- The literal teacher-side marker of the alignment output contract. -/
def alignedTeacherMarker : List Char := chars "ALIGNED_TEACHER:"

/-- The literal observer-side marker of the alignment output contract. -/
def alignedObserverMarker : List Char := chars "ALIGNED_OBSERVER:"

/-- Fueled Python `str.split(sep)` for non-empty `sep`. -/
def splitSubF (sep : List Char) : Nat → List Char → List (List Char)
  | 0, l => [l]
  | _ + 1, [] => [[]]
  | fuel + 1, c :: t =>
    if pyStartsWith sep (c :: t) then
      [] :: splitSubF sep fuel ((c :: t).drop sep.length)
    else
      match splitSubF sep fuel t with
      | [] => [[c]]
      | h :: r => (c :: h) :: r

/-- Python `l.split(sep)`. -/
def splitSub (l sep : List Char) : List (List Char) :=
  splitSubF sep (l.length + 1) l

/-- `align_transcriptions` (src/core/transcription.py lines 54-108).

The external text-generation collaborator is abstracted as
`resp : Option (List Char)`: `none` models a call that raises or a response
without a `text` attribute (the inner `except` turns both into an empty
`result_text`), `some s` a response with text `s`.  The function is total,
which embeds the contract that no exception escapes it. -/
def align_transcriptions (teacher observer : List Char) (resp : Option (List Char)) :
    List Char × List Char :=
  let teacher_text := clean_transcription teacher
  let observer_content := if observer = [] then [] else clean_transcription observer
  if observer_content = [] then (remove_timestamps teacher_text, [])
  else
    let result_text := resp.getD []
    if result_text ≠ [] ∧ listContains result_text alignedTeacherMarker = true ∧
        listContains result_text alignedObserverMarker = true then
      let parts := splitSub result_text alignedObserverMarker
      let teacher_part := pyStrip (replaceAll (parts.headD []) alignedTeacherMarker [])
      let observer_part := pyStrip (parts.getD 1 [])
      (clean_transcription teacher_part, clean_transcription observer_part)
    else (remove_timestamps teacher_text, remove_timestamps observer_content)

/-! ### Line classification and the report body loop

The per-line branch conditions of the rendering loop shared by
src/core/pdf_generation.py lines 83-117 and src/core/reports.py lines
204-238.  The upper/lower-case tables cover ASCII and Latin-1, the character
set reaching the classifier (report text is Latin-1-sanitized first). -/

/-- Uppercase cased characters of ASCII/Latin-1. -/
def pyIsUpperChar (c : Char) : Bool :=
  (65 ≤ c.toNat && c.toNat ≤ 90) ||
  (192 ≤ c.toNat && c.toNat ≤ 222 && c.toNat != 215)

/-- Lowercase cased characters of ASCII/Latin-1. -/
def pyIsLowerChar (c : Char) : Bool :=
  (97 ≤ c.toNat && c.toNat ≤ 122) || c.toNat == 170 || c.toNat == 181 ||
  c.toNat == 186 || (223 ≤ c.toNat && c.toNat ≤ 255 && c.toNat != 247)

/-- Cased characters of ASCII/Latin-1. -/
def pyIsCasedChar (c : Char) : Bool := pyIsUpperChar c || pyIsLowerChar c

/-- Python `str.isupper()`: at least one cased character and every cased
character uppercase. -/
def pyIsUpper (l : List Char) : Bool :=
  l.any pyIsCasedChar && l.all (fun c => !pyIsCasedChar c || pyIsUpperChar c)

/-- Python `str.endswith`. -/
def pyEndsWith (p l : List Char) : Bool := pyStartsWith p.reverse l.reverse

/-- `line.isupper() and line.endswith(":") and len(line.split()) <= 5`
(pdf_generation.py line 92). -/
def sectionHeaderCond (line : List Char) : Bool :=
  pyIsUpper line && pyEndsWith (chars ":") line &&
  (pyTokens line).length ≤ 5

/-- The excluded leading tokens of the subsection-header heuristic
(pdf_generation.py line 102). -/
def subHeaderExcluded : List (List Char) :=
  [chars "- ", chars "* ", chars "• ", chars "The ", chars "This ",
   chars "When ", chars "After ", chars "Before ", chars "During ",
   chars "To ", chars "In ", chars "As ", chars "For ", chars "With "]

/-- The excluded terminal punctuation of the subsection-header heuristic
(pdf_generation.py line 103). -/
def sentenceEnders : List (List Char) :=
  [chars ".", chars "!", chars "?", chars ",", chars ";"]

/-- The speaker labels excluded from subsection headers
(pdf_generation.py line 105). -/
def speakerLabels : List (List Char) :=
  [chars "Teacher:", chars "Student:", chars "Observer:"]

/-- The subsection-header condition (pdf_generation.py lines 101-105). -/
def subHeaderCond (line : List Char) : Bool :=
  2 ≤ (pyTokens line).length && (pyTokens line).length ≤ 12 &&
  !startsWithAny line subHeaderExcluded &&
  !endsWithAny line sentenceEnders &&
  (match line with | [] => false | c :: _ => pyIsUpperChar c) &&
  !startsWithAny line speakerLabels

/-- The bullet condition (pdf_generation.py line 112). -/
def bulletCond (line : List Char) : Bool :=
  startsWithAny line [chars "- ", chars "* ", chars "• "]

/-- The structural kinds a stripped report line can classify as. -/
inductive LineKind
  | blank
  | sectionHeader
  | subHeader
  | bullet
  | body
deriving DecidableEq, Repr

/-- Classification of one stripped line, in the branch order of the source
loop. -/
def classifyLine (line : List Char) : LineKind :=
  if line = [] then .blank
  else if sectionHeaderCond line then .sectionHeader
  else if subHeaderCond line then .subHeader
  else if bulletCond line then .bullet
  else .body

/-- Abstract drawing operations of the renderers: vertical gaps and text
cells recorded with the font style and size active when they are drawn. -/
inductive RenderOp
  | lnGap : Nat → RenderOp
  | textCell : List Char → Nat → List Char → RenderOp
deriving DecidableEq, Repr

/-- The report body loop (pdf_generation.py lines 83-117): `font` is the
mutable (style, size) font state; header branches set a bold font for their
cell and restore `("", 10)`, bullet and body lines draw in the ambient font. -/
def renderBodyLoop : List Char × Nat → List (List Char) → List RenderOp
  | _, [] => []
  | font, raw :: rest =>
    let line := pyStrip raw
    if line = [] then .lnGap 3 :: renderBodyLoop font rest
    else if sectionHeaderCond line then
      .textCell (chars "B") 11 line :: .lnGap 2 :: renderBodyLoop (chars "", 10) rest
    else if subHeaderCond line then
      .textCell (chars "B") 10 line :: .lnGap 1 :: renderBodyLoop (chars "", 10) rest
    else
      .textCell font.1 font.2 line :: renderBodyLoop font rest

/-- The drawing operations a single line contributes, as a pure function of
that line alone (the bullet and body branches of the source emit the same
call). -/
def lineOps (raw : List Char) : List RenderOp :=
  match classifyLine (pyStrip raw) with
  | .blank => [.lnGap 3]
  | .sectionHeader => [.textCell (chars "B") 11 (pyStrip raw), .lnGap 2]
  | .subHeader => [.textCell (chars "B") 10 (pyStrip raw), .lnGap 1]
  | .bullet => [.textCell (chars "") 10 (pyStrip raw)]
  | .body => [.textCell (chars "") 10 (pyStrip raw)]

/-! ### Markdown stripping (pdf_generation.py lines 35-39) -/

/-- Non-greedy search for the closing `**`: extends the captured group one
character at a time (no newlines) until `**` follows a non-empty capture. -/
def mdBoldAux : List Char → List Char → Option (List Char × List Char)
  | acc, rem =>
    if pyStartsWith (chars "**") rem && !(acc == []) then some (acc, rem.drop 2)
    else
      match rem with
      | [] => none
      | c :: t => if c = '\n' then none else mdBoldAux (acc ++ [c]) t

/-- Head match of `\*\*(.+?)\*\*`: the capture and the rest after the match. -/
def mdBoldHead (l : List Char) : Option (List Char × List Char) :=
  if pyStartsWith (chars "**") l then mdBoldAux [] (l.drop 2) else none

/-- Fueled scanner for `re.sub(r'\*\*(.+?)\*\*', r'\1', text)`. -/
def mdBoldF : Nat → List Char → List Char
  | 0, l => l
  | _ + 1, [] => []
  | fuel + 1, c :: t =>
    match mdBoldHead (c :: t) with
    | some (x, rest) => x ++ mdBoldF fuel rest
    | none => c :: mdBoldF fuel t

/-- Remove markdown bold markers. -/
def mdStripBold (l : List Char) : List Char := mdBoldF (l.length + 1) l

/-- Non-greedy search for the closing `*` of the italic pattern. -/
def mdItalAux : List Char → List Char → Option (List Char × List Char)
  | acc, rem =>
    if pyStartsWith (chars "*") rem && !(acc == []) then some (acc, rem.drop 1)
    else
      match rem with
      | [] => none
      | c :: t => if c = '\n' then none else mdItalAux (acc ++ [c]) t

/-- Head match of `\*(.+?)\*`. -/
def mdItalHead (l : List Char) : Option (List Char × List Char) :=
  if pyStartsWith (chars "*") l then mdItalAux [] (l.drop 1) else none

/-- Fueled scanner for `re.sub(r'\*(.+?)\*', r'\1', text)`. -/
def mdItalF : Nat → List Char → List Char
  | 0, l => l
  | _ + 1, [] => []
  | fuel + 1, c :: t =>
    match mdItalHead (c :: t) with
    | some (x, rest) => x ++ mdItalF fuel rest
    | none => c :: mdItalF fuel t

/-- Remove markdown italic markers. -/
def mdStripItalic (l : List Char) : List Char := mdItalF (l.length + 1) l

/-! ### PDF entry points -/

/-- `create_observation_report_pdf` (src/core/pdf_generation.py lines 7-136).
Validation failure raises `ValueError` before any drawing, modelled as
`.error` with the source's message; the success branch yields the sequence of
drawing operations (geometry and page breaks are not modelled).  The internal
`try` cannot fire in the embedding because every modelled operation is a total
string transformation. -/
def create_observation_report_pdf (report_text teacher_name observer_name date_str : List Char)
    (has_teacher_audio : Bool) : Except (List Char) (List RenderOp) :=
  match validate_pdf_inputs report_text teacher_name observer_name date_str with
  | (false, error_msg) => .error (chars "PDF input validation failed: " ++ error_msg)
  | (true, _) =>
    let rt0 := sanitize_text_for_pdf report_text
    let tn := if teacher_name = [] then chars "Not specified"
              else sanitize_text_for_pdf teacher_name
    let ob := if observer_name = [] then chars "Not specified"
              else sanitize_text_for_pdf observer_name
    let ds := sanitize_text_for_pdf date_str
    let rt := mdStripItalic (mdStripBold rt0)
    .ok ([.textCell (chars "B") 16 (chars "Music Teacher Observation Report"), .lnGap 3,
          .textCell (chars "I") 10 ds, .lnGap 5]
      ++ (if has_teacher_audio then []
          else [.textCell (chars "I") 9 (chars "Note: This report is based on observer notes/audio without teacher classroom audio evidence."), .lnGap 3])
      ++ (if tn ≠ [] ∧ tn ≠ chars "Not specified" then
            [.textCell (chars "B") 11 (chars "Teacher: " ++ tn)] else [])
      ++ (if ob ≠ [] ∧ ob ≠ chars "Not specified" then
            [.textCell (chars "B") 11 (chars "Observer: " ++ ob)] else [])
      ++ [.lnGap 5]
      ++ renderBodyLoop (chars "", 10) (splitNL rt)
      ++ [.lnGap 8, .textCell (chars "I") 9 (chars "Disclaimer: This observation report was generated by AI and may contain errors. Please review all content for accuracy and use professional judgment.")])

/-- The placeholder substituted for an empty observer column
(src/core/reports.py line 271, src/core/pdf_generation.py line 238). -/
def observerPlaceholder : List Char := chars "No observer audio or notes provided."

/-- The dual-column rendering stage shared by both validation outcomes:
sanitize both texts and parse them into segment columns (the drawn row
geometry is not modelled). -/
def dualRender (teacher_text observer_text : List Char) :
    Except (List Char) (List (List Char) × List (List Char)) :=
  .ok (parse_segments (sanitize_text_for_pdf teacher_text),
       parse_segments (sanitize_text_for_pdf observer_text))

/-- `create_dual_column_pdf` (src/core/reports.py lines 261-404 and
src/core/pdf_generation.py lines 228-347): teacher validation failure raises;
an observer validation failure whose message mentions "empty" substitutes the
placeholder text, any other observer failure raises. -/
def create_dual_column_pdf (teacher_text observer_text : List Char) :
    Except (List Char) (List (List Char) × List (List Char)) :=
  match validate_text_content teacher_text (chars "Teacher transcription") with
  | (false, error) => .error (chars "Teacher transcription validation failed: " ++ error)
  | (true, _) =>
    match validate_text_content observer_text (chars "Observer transcription") with
    | (true, _) => dualRender teacher_text observer_text
    | (false, error) =>
      if listContains (error.map pyLower) (chars "empty") then
        dualRender teacher_text observerPlaceholder
      else .error (chars "Observer transcription validation failed: " ++ error)

/-- The row of 80 `=` signs of the text fallback. -/
def eq80 : List Char := List.replicate 80 '='

/-- `create_text_fallback` (src/core/reports.py lines 408-423): the plain-text
degradation tier, a pure f-string. -/
def create_text_fallback (report_text teacher_name observer_name date_str : List Char) :
    List Char :=
  chars "MUSIC TEACHER OBSERVATION REPORT\n" ++ date_str ++ chars "\n\n" ++
  chars "Teacher: " ++
    (if teacher_name = [] then chars "Not specified" else teacher_name) ++
  chars "\nObserver: " ++
    (if observer_name = [] then chars "Not specified" else observer_name) ++
  chars "\n\n" ++ eq80 ++ chars "\n\n" ++ report_text ++ chars "\n\n" ++ eq80 ++
  chars "\n\nDisclaimer: This observation report was generated by AI and may contain errors. Please review all content for accuracy and use professional judgment.\n"

/-! ## Helper lemmas -/

theorem pyStartsWith_self_append (p t : List Char) : pyStartsWith p (p ++ t) = true := by
  induction p with
  | nil => rfl
  | cons a p ih => simp [pyStartsWith, ih]

theorem listContains_nil_pat (l : List Char) : listContains l [] = true := by
  cases l <;> simp [listContains, pyStartsWith]

theorem ne_nil_right_append (a b : List Char) (h : b ≠ []) : a ++ b ≠ [] := by
  intro he
  exact h (List.append_eq_nil.mp he).2

theorem listContains_self_append (p b : List Char) : listContains (p ++ b) p = true := by
  cases p with
  | nil => simpa using listContains_nil_pat b
  | cons c t =>
    have h := pyStartsWith_self_append (c :: t) b
    simp only [listContains, List.cons_append]
    rw [List.cons_append] at h
    simp [h]

theorem listContains_append_left (a l p : List Char) (h : listContains l p = true) :
    listContains (a ++ l) p = true := by
  induction a with
  | nil => simpa using h
  | cons c a ih => simp [listContains, ih]

/-! ## C1: totality of segment parsing -/

/-- C1: `parse_segments` is total and never returns an empty sequence; for
empty, whitespace-only or content-free input (equivalently, input that strips
to nothing) it returns exactly `["No content available."]`. -/
theorem c1_parse_segments_total (s : List Char) :
    parse_segments s ≠ [] ∧
    (pyStrip s = [] → parse_segments s = [chars "No content available."]) := by
  refine ⟨parse_segments_ne_nil s, fun h => ?_⟩
  unfold parse_segments
  rw [if_pos (Or.inr h)]
  rfl

/-- Witness for C1 at the whitespace-only input of the specification. -/
theorem c1_witness :
    pyStrip (chars "   \n\n  ") = [] ∧
    parse_segments (chars "   \n\n  ") = [chars "No content available."] :=
  ⟨by decide, (c1_parse_segments_total (chars "   \n\n  ")).2 (by decide)⟩

/-! ## C2: alignment is available without the collaborator on empty input -/

/-- C2: `align_transcriptions("", "")` returns `("", "")`; for any teacher
text whose observer text is empty after preamble-cleaning the result is
`(remove_timestamps(cleaned teacher), "")`, independent of the collaborator
response (the collaborator is not consulted); concretely,
`align("[00:01] Teacher: Hi", "")` returns `("Teacher: Hi", "")`. -/
theorem c2_align_total_availability :
    (∀ r, align_transcriptions [] [] r = ([], [])) ∧
    (∀ t o r, (if o = [] then [] else clean_transcription o) = [] →
      align_transcriptions t o r = (remove_timestamps (clean_transcription t), [])) ∧
    (∀ r, align_transcriptions (chars "[00:01] Teacher: Hi") [] r =
      (chars "Teacher: Hi", [])) := by
  refine ⟨fun r => rfl, fun t o r h => ?_, fun r => rfl⟩
  unfold align_transcriptions
  simp [h]

/-- Witness for C2: the cleaned-empty-observer branch at a concrete input. -/
theorem c2_witness :
    (if ([] : List Char) = [] then [] else clean_transcription []) = ([] : List Char) ∧
    align_transcriptions (chars "Teacher: Hi [00:02]") [] (some (chars "junk")) =
      (remove_timestamps (clean_transcription (chars "Teacher: Hi [00:02]")), []) :=
  ⟨by decide, c2_align_total_availability.2.1 _ _ _ (by decide)⟩

/-! ## C3: deterministic degradation of alignment -/

/-- C3: whenever the cleaned observer text is non-empty and the collaborator
call raises (`resp = none`) or its response does not contain both literal
markers, `align_transcriptions` returns exactly the timestamp-stripped cleaned
pair; the function is total, so no exception escapes it. -/
theorem c3_alignment_fallback (t o : List Char) (r : Option (List Char))
    (h1 : clean_transcription o ≠ [])
    (h2 : r = none ∨ ¬(listContains (r.getD []) alignedTeacherMarker = true ∧
      listContains (r.getD []) alignedObserverMarker = true)) :
    align_transcriptions t o r =
      (remove_timestamps (clean_transcription t),
       remove_timestamps (clean_transcription o)) := by
  have ho : o ≠ [] := by
    intro e
    exact h1 (by rw [e]; rfl)
  have hcond : ¬(r.getD [] ≠ [] ∧
      listContains (r.getD []) alignedTeacherMarker = true ∧
      listContains (r.getD []) alignedObserverMarker = true) := by
    rcases h2 with h2 | h2
    · rw [h2]; simp
    · intro h; exact h2 ⟨h.2.1, h.2.2⟩
  unfold align_transcriptions
  simp only [if_neg ho, if_neg h1, if_neg hcond]

/-- Witness for C3: the collaborator raises on a concrete non-empty pair. -/
theorem c3_witness :
    clean_transcription (chars "note") ≠ [] ∧
    align_transcriptions (chars "hello") (chars "note") none =
      (remove_timestamps (clean_transcription (chars "hello")),
       remove_timestamps (clean_transcription (chars "note"))) :=
  ⟨by decide, c3_alignment_fallback _ _ _ (by decide) (Or.inl rfl)⟩

/-! ## C8: the plain-text degradation tier preserves content -/

/-- C8: `create_text_fallback` is total (never raises) and for all string
arguments returns a non-empty string containing the report text verbatim as a
contiguous substring. -/
theorem c8_text_fallback_preserves (rt tn ob ds : List Char) :
    create_text_fallback rt tn ob ds ≠ [] ∧
    listContains (create_text_fallback rt tn ob ds) rt = true := by
  constructor
  · unfold create_text_fallback
    exact ne_nil_right_append _ _ (by decide)
  · unfold create_text_fallback
    simp only [List.append_assoc]
    apply listContains_append_left
    apply listContains_append_left
    apply listContains_append_left
    apply listContains_append_left
    apply listContains_append_left
    apply listContains_append_left
    apply listContains_append_left
    apply listContains_append_left
    apply listContains_append_left
    apply listContains_append_left
    exact listContains_self_append rt _

/-! ## C5: behaviour of the normalizers on empty and whitespace input -/

theorem pyLower_space {c : Char} (h : pyIsSpace c = true) : pyLower c = c := by
  simp [pyIsSpace] at h
  unfold pyLower
  rw [if_neg]
  omega

theorem pyStrip_eq_nil_allspace {l : List Char} (h : pyStrip l = []) :
    ∀ c ∈ l, pyIsSpace c = true := by
  unfold pyStrip at h
  rw [List.reverse_eq_nil_iff, List.dropWhile_eq_nil_iff] at h
  have hd : ∀ c ∈ l.dropWhile pyIsSpace, pyIsSpace c = true := by
    intro c hc
    exact h c (by simpa using hc)
  intro c hc
  rw [← List.takeWhile_append_dropWhile (p := pyIsSpace) (l := l)] at hc
  rcases List.mem_append.mp hc with hc | hc
  · exact List.mem_takeWhile_imp hc
  · exact hd c hc

theorem ciStarts_allspace (pre l : List Char)
    (hl : ∀ c ∈ l, pyIsSpace c = true) (hpre : pre ≠ [])
    (ha : pyIsSpace (pre.headD ' ') = false) :
    ciStarts pre l = false := by
  cases pre with
  | nil => exact absurd rfl hpre
  | cons a p =>
    simp only [List.headD_cons] at ha
    cases l with
    | nil => rfl
    | cons c t =>
      simp only [ciStarts, List.length_cons, List.take, List.map, beq_eq_false_iff_ne, ne_eq]
      intro he
      have h1 : pyLower c = a := (List.cons.injEq _ _ _ _ ▸ he).1
      have hc : pyIsSpace c = true := hl c (by simp)
      rw [pyLower_space hc] at h1
      subst h1
      rw [hc] at ha
      exact Bool.noConfusion ha

theorem subPreF_allspace (pre suf : List Char) (hpre : pre ≠ [])
    (ha : pyIsSpace (pre.headD ' ') = false) :
    ∀ fuel l, (∀ c ∈ l, pyIsSpace c = true) → subPreF pre suf fuel l = l := by
  intro fuel
  induction fuel with
  | zero => intro l _; rfl
  | succ fuel ih =>
    intro l hl
    cases l with
    | nil =>
      cases pre with
      | nil => exact absurd rfl hpre
      | cons a p => rfl
    | cons c t =>
      cases pre with
      | nil => exact absurd rfl hpre
      | cons a p =>
        unfold subPreF
        rw [ciStarts_allspace (a :: p) (c :: t) hl hpre ha]
        simp only [Bool.false_eq_true, if_false]
        rw [ih t (fun x hx => hl x (by simp [hx]))]

theorem subPre_allspace (pre suf l : List Char) (hpre : pre ≠ [])
    (ha : pyIsSpace (pre.headD ' ') = false)
    (h : ∀ c ∈ l, pyIsSpace c = true) : subPre pre suf l = l :=
  subPreF_allspace pre suf hpre ha _ l h

theorem clean_transcription_allspace {l : List Char} (h : ∀ c ∈ l, pyIsSpace c = true) :
    clean_transcription l = [] := by
  unfold clean_transcription
  split
  · rfl
  · rw [subPre_allspace _ _ l (by decide) (by decide) h]
    rw [subPre_allspace _ _ l (by decide) (by decide) h]
    rw [subPre_allspace _ _ l (by decide) (by decide) h]
    unfold pyStrip
    rw [List.dropWhile_eq_nil_iff.mpr h]
    rfl

/-- C5 counterexample: the claim says `sanitize_text_for_pdf` returns the
empty string on a pure-whitespace string, but on the whitespace input `" "`
it returns `" "`, not `""`. -/
theorem c5_counterexample :
    pyStrip (chars " ") = [] ∧
    sanitize_text_for_pdf (chars " ") = chars " " ∧ chars " " ≠ [] := by
  refine ⟨by decide, ?_, by decide⟩
  decide

/-- C5 amended: `clean_transcription` and `sanitize_text_for_pdf` are total
(never raise; both are total Lean functions), `clean_transcription` returns
the empty string on every empty or pure-whitespace input, and
`sanitize_text_for_pdf` returns the empty string on the empty input.  Whether
a pure-whitespace input sanitizes to empty depends on its characters (the
counterexample shows a space is returned as a space). -/
theorem c5_normalizers_amended :
    (∀ s, pyStrip s = [] → clean_transcription s = []) ∧
    sanitize_text_for_pdf [] = [] := by
  refine ⟨fun s h => clean_transcription_allspace (pyStrip_eq_nil_allspace h), rfl⟩

/-- Witness for C5 at a concrete whitespace input. -/
theorem c5_witness :
    pyStrip (chars " \n\x09 ") = [] ∧ clean_transcription (chars " \n\x09 ") = [] :=
  ⟨by decide, c5_normalizers_amended.1 _ (by decide)⟩

/-! ## C6: header heuristics and order-independence of classification -/

theorem renderBodyLoop_eq_flatMap (lines : List (List Char)) :
    renderBodyLoop (chars "", 10) lines = lines.flatMap lineOps := by
  induction lines with
  | nil => rfl
  | cons raw rest ih =>
    by_cases h1 : pyStrip raw = []
    · simp [renderBodyLoop, lineOps, classifyLine, h1, ih]
    · by_cases h2 : sectionHeaderCond (pyStrip raw) = true
      · simp [renderBodyLoop, lineOps, classifyLine, h1, h2, ih]
      · by_cases h3 : subHeaderCond (pyStrip raw) = true
        · simp [renderBodyLoop, lineOps, classifyLine, h1, h2, h3, ih]
        · by_cases h4 : bulletCond (pyStrip raw) = true
          · simp [renderBodyLoop, lineOps, classifyLine, h1, h2, h3, h4, ih]
          · simp [renderBodyLoop, lineOps, classifyLine, h1, h2, h3, h4, ih]

/-- C6: the line `"LESSON SUMMARY:"` classifies as a section header (drawn
bold at size 11), `"The teacher used clear instructions."` as body text
(drawn in the plain size-10 body font, because it starts with the excluded
word "The"), `"Positive Classroom Environment"` as a subsection header (drawn
bold at size 10); and the body loop's output is a per-line function of each
line alone, so classification never depends on surrounding lines. -/
theorem c6_header_heuristics :
    classifyLine (chars "LESSON SUMMARY:") = LineKind.sectionHeader ∧
    classifyLine (chars "The teacher used clear instructions.") = LineKind.body ∧
    classifyLine (chars "Positive Classroom Environment") = LineKind.subHeader ∧
    renderBodyLoop (chars "", 10) [chars "LESSON SUMMARY:"] =
      [RenderOp.textCell (chars "B") 11 (chars "LESSON SUMMARY:"), RenderOp.lnGap 2] ∧
    renderBodyLoop (chars "", 10) [chars "The teacher used clear instructions."] =
      [RenderOp.textCell (chars "") 10 (chars "The teacher used clear instructions.")] ∧
    renderBodyLoop (chars "", 10) [chars "Positive Classroom Environment"] =
      [RenderOp.textCell (chars "B") 10 (chars "Positive Classroom Environment"),
       RenderOp.lnGap 1] ∧
    (∀ lines, renderBodyLoop (chars "", 10) lines = lines.flatMap lineOps) := by
  refine ⟨by decide, by decide, by decide, by decide, by decide, by decide,
    renderBodyLoop_eq_flatMap⟩

/-! ## C7: pre-render validation boundary -/

theorem validate_text_content_long (text field : List Char) (h : 500000 < text.length) :
    (validate_text_content text field).1 = false := by
  have hne : text ≠ [] := by
    intro e
    rw [e] at h
    simp at h
  unfold validate_text_content
  rw [if_neg hne]
  split <;> rfl

/-- C7: `validate_pdf_inputs` rejects an empty report text with a message
mentioning "empty" and rejects report text longer than 500,000 characters;
whenever validation fails, `create_observation_report_pdf` returns the
`ValueError` containing the validation message instead of any drawing
operations. -/
theorem c7_validation_boundary :
    (∀ tn ob d, (validate_pdf_inputs [] tn ob d).1 = false ∧
      listContains (validate_pdf_inputs [] tn ob d).2 (chars "empty") = true) ∧
    (∀ rt tn ob d, 500000 < rt.length → (validate_pdf_inputs rt tn ob d).1 = false) ∧
    (∀ rt tn ob d ha msg, validate_pdf_inputs rt tn ob d = (false, msg) →
      create_observation_report_pdf rt tn ob d ha =
        Except.error (chars "PDF input validation failed: " ++ msg)) := by
  have hempty : ∀ tn ob d : List Char, validate_pdf_inputs [] tn ob d =
      (false, chars "Report validation failed: Report text is empty or None") :=
    fun tn ob d => rfl
  refine ⟨fun tn ob d => ⟨by rw [hempty], by rw [hempty]; decide⟩,
    fun rt tn ob d h => ?_, fun rt tn ob d ha msg h => ?_⟩
  · have hv := validate_text_content_long rt (chars "Report text") h
    unfold validate_pdf_inputs
    cases he : validate_text_content rt (chars "Report text") with
    | mk b m =>
      rw [he] at hv
      simp only at hv
      cases b
      · rfl
      · exact Bool.noConfusion hv
  · unfold create_observation_report_pdf
    rw [h]

/-- Witness for C7: over-long report text is rejected, and the empty report
text makes the renderer raise the validation `ValueError` before drawing. -/
theorem c7_witness :
    500000 < (List.replicate 500001 'a').length ∧
    (validate_pdf_inputs (List.replicate 500001 'a') (chars "A") (chars "B")
      (chars "Jan 1")).1 = false ∧
    create_observation_report_pdf [] (chars "A") (chars "B") (chars "Jan 1") true =
      Except.error (chars "PDF input validation failed: Report validation failed: Report text is empty or None") := by
  have h1 : 500000 < (List.replicate 500001 'a').length := by
    rw [List.length_replicate]
    omega
  have h3 : validate_pdf_inputs [] (chars "A") (chars "B") (chars "Jan 1") =
      (false, chars "Report validation failed: Report text is empty or None") := by decide
  refine ⟨h1, c7_validation_boundary.2.1 _ _ _ _ h1, ?_⟩
  rw [c7_validation_boundary.2.2 [] (chars "A") (chars "B") (chars "Jan 1") true _ h3]
  exact congrArg Except.error (by decide)

/-! ## C10: validation behaviour of the dual-column renderer -/

theorem pyStartsWith_exists {p l : List Char} (h : pyStartsWith p l = true) :
    ∃ t, l = p ++ t := by
  induction p generalizing l with
  | nil => exact ⟨l, rfl⟩
  | cons a p ih =>
    cases l with
    | nil => exact absurd h (by simp [pyStartsWith])
    | cons b l' =>
      simp only [pyStartsWith, Bool.and_eq_true, beq_iff_eq] at h
      obtain ⟨t, ht⟩ := ih h.2
      cases h.1
      exact ⟨t, by rw [ht]; rfl⟩

theorem listContains_exists {l p : List Char} (h : listContains l p = true) :
    ∃ x y, l = x ++ p ++ y := by
  induction l with
  | nil =>
    simp only [listContains, beq_iff_eq] at h
    exact ⟨[], [], by rw [h]; rfl⟩
  | cons c t ih =>
    simp only [listContains, Bool.or_eq_true] at h
    rcases h with h | h
    · obtain ⟨y, hy⟩ := pyStartsWith_exists h
      exact ⟨[], y, by rw [hy]; rfl⟩
    · obtain ⟨x, y, hxy⟩ := ih h
      exact ⟨c :: x, y, by rw [hxy]; rfl⟩

theorem listContains_eq_false_of_missing_char (l p : List Char) (ch : Char)
    (hp : ch ∈ p) (hl : ch ∉ l) : listContains l p = false := by
  cases h : listContains l p
  · rfl
  · exfalso
    obtain ⟨x, y, hxy⟩ := listContains_exists h
    apply hl
    rw [hxy]
    simp [hp]

theorem natDecimalF_digits :
    ∀ fuel n c, c ∈ natDecimalF fuel n → c ∈ chars "0123456789" := by
  intro fuel
  induction fuel with
  | zero => intro n c hc; simp [natDecimalF] at hc
  | succ fuel ih =>
    intro n c hc
    unfold natDecimalF at hc
    by_cases h : n < 10
    · rw [if_pos h] at hc
      simp only [List.mem_singleton] at hc
      subst hc
      interval_cases n <;> decide
    · rw [if_neg h] at hc
      rcases List.mem_append.mp hc with hc | hc
      · exact ih _ _ hc
      · simp only [List.mem_singleton] at hc
        subst hc
        have hm : n % 10 < 10 := Nat.mod_lt _ (by omega)
        generalize n % 10 = m at hm ⊢
        interval_cases m <;> decide

theorem digit_pyLower_ne_y {c : Char} (h : c ∈ chars "0123456789") :
    pyLower c ≠ 'y' := by
  fin_cases h <;> decide

theorem no_y_in_long_msg (o : List Char) :
    listContains
      ((chars "Observer transcription" ++ chars " is too long (" ++
        natDecimal o.length ++
        chars " chars). Maximum is 500,000 characters.").map pyLower)
      (chars "empty") = false := by
  apply listContains_eq_false_of_missing_char _ _ 'y' (by decide)
  intro hy
  simp only [List.map_append, List.mem_append, List.mem_map] at hy
  rcases hy with ((⟨c, hc, he⟩ | ⟨c, hc, he⟩) | ⟨c, hc, he⟩) | ⟨c, hc, he⟩
  · fin_cases hc <;> exact absurd he (by decide)
  · fin_cases hc <;> exact absurd he (by decide)
  · exact digit_pyLower_ne_y (natDecimalF_digits _ _ _ hc) he
  · fin_cases hc <;> exact absurd he (by decide)

/-- C10 counterexample: the claim says a whitespace-only `observer_text` does
not raise and is replaced by the placeholder, but the source's substitution
branch requires the validation message to contain "empty", and the
whitespace-only message ("... contains only whitespace") does not, so the
renderer raises `ValueError` on a whitespace-only observer text. -/
theorem c10_counterexample :
    create_dual_column_pdf (chars "Teacher: Hi") (chars " ") =
      Except.error
        (chars "Observer transcription validation failed: Observer transcription contains only whitespace") :=
  rfl

/-- C10 amended: `create_dual_column_pdf` raises `ValueError` whenever the
teacher text fails validation; an exactly-empty observer text does not raise
and is substituted by the placeholder "No observer audio or notes provided.";
an observer text failing validation for any other reason — including
whitespace-only and over-long text — raises `ValueError`. -/
theorem c10_dual_column_validation :
    (∀ t o e, validate_text_content t (chars "Teacher transcription") = (false, e) →
      create_dual_column_pdf t o =
        Except.error (chars "Teacher transcription validation failed: " ++ e)) ∧
    (∀ t, (validate_text_content t (chars "Teacher transcription")).1 = true →
      create_dual_column_pdf t [] =
        Except.ok (parse_segments (sanitize_text_for_pdf t), [observerPlaceholder])) ∧
    (∀ t o, (validate_text_content t (chars "Teacher transcription")).1 = true →
      o ≠ [] → pyStrip o = [] →
      create_dual_column_pdf t o =
        Except.error
          (chars "Observer transcription validation failed: Observer transcription contains only whitespace")) ∧
    (∀ t o, (validate_text_content t (chars "Teacher transcription")).1 = true →
      pyStrip o ≠ [] → 500000 < o.length →
      create_dual_column_pdf t o =
        Except.error (chars "Observer transcription validation failed: " ++
          (validate_text_content o (chars "Observer transcription")).2)) := by
  refine ⟨fun t o e h => ?_, fun t h => ?_, fun t o h ho hs => ?_, fun t o h hs hlen => ?_⟩
  · unfold create_dual_column_pdf
    rw [h]
  · unfold create_dual_column_pdf
    cases he : validate_text_content t (chars "Teacher transcription") with
    | mk b m =>
      rw [he] at h
      cases b
      · exact Bool.noConfusion h
      · rfl
  · have hv : validate_text_content o (chars "Observer transcription") =
        (false, chars "Observer transcription contains only whitespace") := by
      unfold validate_text_content
      rw [if_neg ho, if_pos hs]
      rfl
    unfold create_dual_column_pdf
    cases he : validate_text_content t (chars "Teacher transcription") with
    | mk b m =>
      rw [he] at h
      cases b
      · exact Bool.noConfusion h
      · rw [hv]
        rfl
  · have ho : o ≠ [] := by
      intro e
      rw [e] at hlen
      simp at hlen
    have hv : validate_text_content o (chars "Observer transcription") =
        (false, chars "Observer transcription" ++ chars " is too long (" ++
          natDecimal o.length ++ chars " chars). Maximum is 500,000 characters.") := by
      unfold validate_text_content
      rw [if_neg ho, if_neg hs, if_pos hlen]
    unfold create_dual_column_pdf
    cases he : validate_text_content t (chars "Teacher transcription") with
    | mk b m =>
      rw [he] at h
      cases b
      · exact Bool.noConfusion h
      · rw [hv]
        simp only [no_y_in_long_msg o, Bool.false_eq_true, if_false]

/-- Witness for C10: concrete applications of each hypothesised branch. -/
theorem c10_witness :
    (validate_text_content (chars "Teacher: Hi") (chars "Teacher transcription")).1 = true ∧
    create_dual_column_pdf (chars "Teacher: Hi") [] =
      Except.ok (parse_segments (sanitize_text_for_pdf (chars "Teacher: Hi")),
        [observerPlaceholder]) ∧
    pyStrip (List.replicate 500001 'a') ≠ [] ∧
    500000 < (List.replicate 500001 'a').length ∧
    create_dual_column_pdf (chars "Teacher: Hi") (List.replicate 500001 'a') =
      Except.error (chars "Observer transcription validation failed: " ++
        (validate_text_content (List.replicate 500001 'a')
          (chars "Observer transcription")).2) := by
  have hstrip : pyStrip (List.replicate 500001 'a') = List.replicate 500001 'a' := by
    have hdw : ∀ n, (List.replicate n 'a').dropWhile pyIsSpace = List.replicate n 'a' := by
      intro n
      cases n with
      | zero => rfl
      | succ n => rw [List.replicate_succ, List.dropWhile_cons_of_neg (by decide)]
    unfold pyStrip
    rw [hdw, List.reverse_replicate, hdw, List.reverse_replicate]
  have hne : pyStrip (List.replicate 500001 'a') ≠ [] := by
    rw [hstrip]
    intro h
    have := congrArg List.length h
    rw [List.length_replicate] at this
    simp at this
  have hlen : 500000 < (List.replicate 500001 'a').length := by
    rw [List.length_replicate]
    omega
  have ht : (validate_text_content (chars "Teacher: Hi")
      (chars "Teacher transcription")).1 = true := by decide
  exact ⟨ht, c10_dual_column_validation.2.1 _ ht, hne, hlen,
    c10_dual_column_validation.2.2.2 _ _ ht hne hlen⟩

/-! ## C9: Latin-1 closure of sanitization -/

theorem mem_replaceAllF (pat rep : List Char) :
    ∀ fuel l c, c ∈ replaceAllF pat rep fuel l → c ∈ l ∨ c ∈ rep := by
  intro fuel
  induction fuel with
  | zero => intro l c h; exact Or.inl h
  | succ fuel ih =>
    intro l c h
    cases l with
    | nil => simp [replaceAllF] at h
    | cons a t =>
      unfold replaceAllF at h
      by_cases hp : pyStartsWith pat (a :: t) = true
      · rw [if_pos hp] at h
        rcases List.mem_append.mp h with h | h
        · exact Or.inr h
        · rcases ih _ _ h with h | h
          · exact Or.inl (List.drop_subset _ _ h)
          · exact Or.inr h
      · rw [if_neg hp] at h
        rcases List.mem_cons.mp h with h | h
        · exact Or.inl (by rw [h]; exact List.mem_cons_self _ _)
        · rcases ih _ _ h with h | h
          · exact Or.inl (List.mem_cons_of_mem _ h)
          · exact Or.inr h

theorem mem_replaceAll {l pat rep : List Char} {c : Char}
    (h : c ∈ replaceAll l pat rep) : c ∈ l ∨ c ∈ rep :=
  mem_replaceAllF pat rep _ l c h

theorem mem_breakRunsF :
    ∀ fuel l c, c ∈ breakRunsF fuel l → c ∈ l ∨ c = ' ' := by
  intro fuel
  induction fuel with
  | zero => intro l c h; exact Or.inl h
  | succ fuel ih =>
    intro l c h
    cases l with
    | nil => simp [breakRunsF] at h
    | cons a t =>
      unfold breakRunsF at h
      by_cases hm : matchAt60 (a :: t) = true
      · rw [if_pos hm] at h
        rcases List.mem_append.mp h with h | h
        · exact Or.inl (List.take_subset _ _ h)
        · rcases List.mem_cons.mp h with h | h
          · exact Or.inr h
          · rcases ih _ _ h with h | h
            · exact Or.inl (List.drop_subset _ _ h)
            · exact Or.inr h
      · rw [if_neg hm] at h
        rcases List.mem_cons.mp h with h | h
        · exact Or.inl (by rw [h]; exact List.mem_cons_self _ _)
        · rcases ih _ _ h with h | h
          · exact Or.inl (List.mem_cons_of_mem _ h)
          · exact Or.inr h

theorem mem_foldRepl :
    ∀ (d : List (Char × List Char)) (l : List Char) (c : Char),
      c ∈ d.foldl (fun acc p => replaceAll acc [p.1] p.2) l →
      c ∈ l ∨ ∃ p ∈ d, c ∈ p.2 := by
  intro d
  induction d with
  | nil => intro l c h; exact Or.inl h
  | cons q d ih =>
    intro l c h
    simp only [List.foldl_cons] at h
    rcases ih _ _ h with h | ⟨p, hp, hc⟩
    · rcases mem_replaceAll h with h | h
      · exact Or.inl h
      · exact Or.inr ⟨q, by simp, h⟩
    · exact Or.inr ⟨p, by simp [hp], hc⟩

theorem mem_applyReplacements {l : List Char} {c : Char}
    (h : c ∈ applyReplacements l) : c ∈ l ∨ ∃ p ∈ replacementDict, c ∈ p.2 :=
  mem_foldRepl replacementDict l c h

/-- C9: every character of `sanitize_text_for_pdf`'s output has code point
below 256, so sanitized text is always Latin-1 encodable. -/
theorem c9_latin1_closure (s : List Char) :
    (sanitize_text_for_pdf s).all (fun c => decide (c.toNat < 256)) = true := by
  unfold sanitize_text_for_pdf
  split
  · rfl
  · rw [List.all_eq_true]
    intro c hc
    unfold normEOL at hc
    rcases List.mem_map.mp hc with ⟨a, ha, hfa⟩
    have hlt : ∀ b : Char, b ∈ latin1Filter (breakRuns (applyReplacements s)) →
        b.toNat < 256 := by
      intro b hb
      have := List.of_mem_filter hb
      simpa using this
    have ha' : a.toNat < 256 := by
      rcases mem_replaceAll ha with h | h
      · exact hlt a h
      · simp only [List.mem_singleton] at h
        rw [h]
        decide
    by_cases hcr : a = Char.ofNat 13
    · rw [if_pos hcr] at hfa
      rw [← hfa]
      decide
    · rw [if_neg hcr] at hfa
      rw [← hfa]
      simpa using ha'

/-! ## C4: idempotence of sanitization on printable ASCII/Latin-1 strings

The proof goes through a structural invariant: `ok60 l` says no position of
`l` starts 61 consecutive non-whitespace characters, i.e. the soft-break
regex has no match anywhere.  `breakRuns` output satisfies `ok60`, `ok60`
inputs are `breakRuns` fixpoints, and the later pipeline stages preserve
`ok60` on the Latin-1 domain. -/

/-- The printable ASCII/Latin-1 characters (the claim's input domain). -/
def printableLatin1 (c : Char) : Bool :=
  (32 ≤ c.toNat && c.toNat ≤ 126) || (160 ≤ c.toNat && c.toNat ≤ 255)

/-- No suffix of `l` begins with 61 consecutive non-whitespace characters. -/
def ok60 : List Char → Bool
  | [] => true
  | c :: t => !matchAt60 (c :: t) && ok60 t

theorem matchAt60_length_ge {l : List Char} (h : matchAt60 l = true) :
    61 ≤ l.length := by
  unfold matchAt60 at h
  simp only [Bool.and_eq_true] at h
  have h1 := h.1
  rw [beq_iff_eq, List.length_take] at h1
  omega

theorem matchAt60_false_of_any_space {l : List Char}
    (h : (l.take 61).any pyIsSpace = true) : matchAt60 l = false := by
  rcases List.any_eq_true.mp h with ⟨x, hx, hpx⟩
  unfold matchAt60
  cases hall : (l.take 61).all (fun c => !pyIsSpace c)
  · rw [Bool.and_false]
  · exfalso
    have hx2 := List.all_eq_true.mp hall x hx
    rw [hpx] at hx2
    exact Bool.noConfusion hx2

theorem matchAt60_false_of_short {l : List Char} (h : l.length ≤ 60) :
    matchAt60 l = false := by
  unfold matchAt60
  have h1 : ((l.take 61).length == 61) = false := by
    rw [List.length_take, beq_eq_false_iff_ne]
    omega
  rw [h1, Bool.false_and]

theorem matchAt60_cons_space {c : Char} (x : List Char) (hc : pyIsSpace c = true) :
    matchAt60 (c :: x) = false := by
  have hall : ((c :: x).take 61).all (fun d => !pyIsSpace d) = false := by
    have ht : (c :: x).take 61 = c :: x.take 60 := List.take_succ_cons
    rw [ht]
    simp [hc]
  unfold matchAt60
  rw [hall, Bool.and_false]

theorem matchAt60_append_space (X M : List Char) (hX : X.length ≤ 60) :
    matchAt60 (X ++ ' ' :: M) = false := by
  apply matchAt60_false_of_any_space
  apply List.any_eq_true.mpr
  refine ⟨' ', ?_, by decide⟩
  rw [List.take_append_eq_append_take]
  have hx61 : X.take 61 = X := List.take_of_length_le (by omega)
  have h2 : 61 - X.length = (60 - X.length) + 1 := by omega
  rw [hx61, h2, List.take_succ_cons]
  simp

theorem breakRunsF_short : ∀ fuel (l : List Char), l.length ≤ 60 → l.length < fuel →
    breakRunsF fuel l = l := by
  intro fuel
  induction fuel with
  | zero => intro l _ h0; exact absurd h0 (by omega)
  | succ f ih =>
    intro l h hf
    cases l with
    | nil => rfl
    | cons c t =>
      have hstep : breakRunsF (f + 1) (c :: t) = c :: breakRunsF f t := by
        rw [breakRunsF]
        exact if_neg (by rw [matchAt60_false_of_short h]; simp)
      rw [hstep]
      rw [ih t (by simp at h; omega) (by simp at hf; omega)]

theorem breakRunsF_any_space : ∀ fuel (l : List Char) (n : Nat), l.length < fuel →
    n ≤ 61 → (l.take n).any pyIsSpace = true →
    ((breakRunsF fuel l).take n).any pyIsSpace = true := by
  intro fuel
  induction fuel with
  | zero => intro l n h0 _ _; exact absurd h0 (by omega)
  | succ f ih =>
    intro l n hf hn h
    cases l with
    | nil => simpa using h
    | cons c t =>
      by_cases hm : matchAt60 (c :: t) = true
      · exfalso
        rcases List.any_eq_true.mp h with ⟨x, hx, hpx⟩
        have hx61 : x ∈ (c :: t).take 61 := by
          have he : (c :: t).take n = ((c :: t).take 61).take n := by
            rw [List.take_take]
            congr 1
            omega
          rw [he] at hx
          exact List.take_subset _ _ hx
        unfold matchAt60 at hm
        simp only [Bool.and_eq_true] at hm
        have hx2 := List.all_eq_true.mp hm.2 x hx61
        rw [hpx] at hx2
        exact Bool.noConfusion hx2
      · have hstep : breakRunsF (f + 1) (c :: t) = c :: breakRunsF f t := by
          rw [breakRunsF]
          exact if_neg hm
        rw [hstep]
        cases n with
        | zero => simpa using h
        | succ m =>
          rw [List.take_succ_cons] at h ⊢
          rw [List.any_cons] at h ⊢
          simp only [Bool.or_eq_true] at h
          rcases h with h | h
          · rw [h, Bool.true_or]
          · have := ih t m (by simp at hf; omega) (by omega) h
            rw [this, Bool.or_true]

theorem breakRunsF_head_no_match (fuel : Nat) (c : Char) (t : List Char)
    (hf : t.length < fuel) (h : matchAt60 (c :: t) = false) :
    matchAt60 (c :: breakRunsF fuel t) = false := by
  by_cases hc : pyIsSpace c = true
  · exact matchAt60_cons_space _ hc
  · by_cases hlen : t.length < 60
    · rw [breakRunsF_short fuel t (by omega) hf]
      exact h
    · have h60 : ∃ x ∈ t.take 60, pyIsSpace x = true := by
        by_contra hno
        push_neg at hno
        have hall : ((c :: t).take 61).all (fun d => !pyIsSpace d) = true := by
          have ht : (c :: t).take 61 = c :: t.take 60 := List.take_succ_cons
          rw [ht, List.all_cons]
          have hc' : pyIsSpace c = false := by
            cases he : pyIsSpace c
            · rfl
            · exact absurd he hc
          rw [hc']
          rw [Bool.not_false, Bool.true_and]
          apply List.all_eq_true.mpr
          intro x hx
          have := hno x hx
          simp only [Bool.not_eq_true] at this ⊢
          rw [this]
          rfl
        have hlen61 : ((c :: t).take 61).length == 61 := by
          rw [beq_iff_eq, List.length_take]
          simp only [List.length_cons]
          omega
        unfold matchAt60 at h
        rw [hlen61, hall] at h
        exact Bool.noConfusion h
      obtain ⟨x, hx, hpx⟩ := h60
      have hany : ((breakRunsF fuel t).take 60).any pyIsSpace = true :=
        breakRunsF_any_space fuel t 60 hf (by omega)
          (List.any_eq_true.mpr ⟨x, hx, hpx⟩)
      apply matchAt60_false_of_any_space
      have ht : (c :: breakRunsF fuel t).take 61 =
          c :: (breakRunsF fuel t).take 60 := List.take_succ_cons
      rw [ht, List.any_cons, hany, Bool.or_true]

theorem ok60_append_space : ∀ (T S : List Char), T.length ≤ 60 → ok60 S = true →
    ok60 (T ++ ' ' :: S) = true := by
  intro T
  induction T with
  | nil =>
    intro S _ hS
    simp only [List.nil_append, ok60]
    rw [matchAt60_cons_space _ (by decide)]
    simpa using hS
  | cons c T ih =>
    intro S hT hS
    have hm := matchAt60_append_space (c :: T) S hT
    have h2 := ih S (by simp at hT; omega) hS
    rw [List.cons_append] at hm
    show ok60 ((c :: T) ++ ' ' :: S) = true
    rw [List.cons_append]
    simp only [ok60]
    rw [hm, h2]
    rfl

theorem ok60_breakRunsF : ∀ fuel (l : List Char), l.length < fuel →
    ok60 (breakRunsF fuel l) = true := by
  intro fuel
  induction fuel with
  | zero => intro l h; exact absurd h (by omega)
  | succ f ih =>
    intro l hf
    cases l with
    | nil => rfl
    | cons c t =>
      by_cases hm : matchAt60 (c :: t) = true
      · have hstep : breakRunsF (f + 1) (c :: t) =
            (c :: t).take 60 ++ ' ' :: breakRunsF f ((c :: t).drop 60) := by
          rw [breakRunsF]
          exact if_pos hm
        rw [hstep]
        apply ok60_append_space
        · rw [List.length_take]
          omega
        · apply ih
          rw [List.length_drop]
          have h61 := matchAt60_length_ge hm
          simp only [List.length_cons] at h61 hf ⊢
          omega
      · have hm' : matchAt60 (c :: t) = false := by
          cases he : matchAt60 (c :: t)
          · rfl
          · exact absurd he hm
        have hstep : breakRunsF (f + 1) (c :: t) = c :: breakRunsF f t := by
          rw [breakRunsF]
          exact if_neg hm
        rw [hstep]
        simp only [ok60]
        rw [breakRunsF_head_no_match f c t (by simp at hf; omega) hm']
        rw [ih t (by simp at hf; omega)]
        rfl

theorem breakRunsF_of_ok60 : ∀ fuel (l : List Char), ok60 l = true →
    breakRunsF fuel l = l := by
  intro fuel
  induction fuel with
  | zero => intro l _; rfl
  | succ f ih =>
    intro l h
    cases l with
    | nil => rfl
    | cons c t =>
      simp only [ok60, Bool.and_eq_true, Bool.not_eq_true'] at h
      have hstep : breakRunsF (f + 1) (c :: t) = c :: breakRunsF f t := by
        rw [breakRunsF]
        exact if_neg (by rw [h.1]; simp)
      rw [hstep, ih t h.2]

theorem ok60_breakRuns (l : List Char) : ok60 (breakRuns l) = true :=
  ok60_breakRunsF _ l (by omega)

theorem breakRuns_of_ok60 {l : List Char} (h : ok60 l = true) : breakRuns l = l :=
  breakRunsF_of_ok60 _ l h

theorem mem_breakRuns {l : List Char} {c : Char} (h : c ∈ breakRuns l) :
    c ∈ l ∨ c = ' ' :=
  mem_breakRunsF _ l c h

/-- Extracting a whitespace witness from a failed 61-run match with a
non-whitespace head and enough length. -/
theorem matchAt60_cons_false_any_space {c : Char} {t : List Char}
    (hc : pyIsSpace c = false) (hlen : 60 ≤ t.length)
    (h : matchAt60 (c :: t) = false) : (t.take 60).any pyIsSpace = true := by
  by_contra hno
  push_neg at hno
  have hall : ((c :: t).take 61).all (fun d => !pyIsSpace d) = true := by
    have ht : (c :: t).take 61 = c :: t.take 60 := List.take_succ_cons
    rw [ht, List.all_cons, hc]
    rw [Bool.not_false, Bool.true_and]
    apply List.all_eq_true.mpr
    intro x hx
    have hx2 : pyIsSpace x = false := by
      cases he : pyIsSpace x
      · rfl
      · exact absurd (List.any_eq_true.mpr ⟨x, hx, he⟩) hno
    rw [hx2]
    rfl
  have hlen61 : ((c :: t).take 61).length == 61 := by
    rw [beq_iff_eq, List.length_take]
    simp only [List.length_cons]
    omega
  unfold matchAt60 at h
  rw [hlen61, hall] at h
  exact Bool.noConfusion h

/-! The `\r\n -> \n` substitution and the final `\r -> \n` map preserve
`ok60`: they only rewrite whitespace into whitespace. -/

theorem pyStartsWith_length {p l : List Char} (h : pyStartsWith p l = true) :
    p.length ≤ l.length := by
  induction p generalizing l with
  | nil => simp
  | cons a p ih =>
    cases l with
    | nil => exact absurd h (by simp [pyStartsWith])
    | cons b t =>
      simp only [pyStartsWith, Bool.and_eq_true] at h
      have := ih h.2
      simp only [List.length_cons]
      omega

theorem replaceAllF_length_le (pat rep : List Char) (hr : rep.length ≤ pat.length) :
    ∀ fuel (l : List Char), (replaceAllF pat rep fuel l).length ≤ l.length := by
  intro fuel
  induction fuel with
  | zero => intro l; exact le_refl _
  | succ f ih =>
    intro l
    cases l with
    | nil => simp [replaceAllF]
    | cons c t =>
      by_cases hp : pyStartsWith pat (c :: t) = true
      · have hstep : replaceAllF pat rep (f + 1) (c :: t) =
            rep ++ replaceAllF pat rep f ((c :: t).drop pat.length) := by
          rw [replaceAllF]
          exact if_pos hp
        rw [hstep, List.length_append]
        have h1 := ih ((c :: t).drop pat.length)
        have h2 := pyStartsWith_length hp
        rw [List.length_drop] at h1
        simp only [List.length_cons] at h1 h2 ⊢
        omega
      · have hstep : replaceAllF pat rep (f + 1) (c :: t) =
            c :: replaceAllF pat rep f t := by
          rw [replaceAllF]
          exact if_neg hp
        rw [hstep]
        have h1 := ih t
        simp only [List.length_cons]
        omega

theorem replaceCrlf_any_space :
    ∀ fuel (l : List Char) (n : Nat), (l.take n).any pyIsSpace = true →
    ((replaceAllF [Char.ofNat 13, '\n'] ['\n'] fuel l).take n).any pyIsSpace = true := by
  intro fuel
  induction fuel with
  | zero => intro l n h; exact h
  | succ f ih =>
    intro l n h
    cases l with
    | nil => simpa using h
    | cons c t =>
      by_cases hp : pyStartsWith [Char.ofNat 13, '\n'] (c :: t) = true
      · have hstep : replaceAllF [Char.ofNat 13, '\n'] ['\n'] (f + 1) (c :: t) =
            '\n' :: replaceAllF [Char.ofNat 13, '\n'] ['\n'] f ((c :: t).drop 2) := by
          rw [replaceAllF]
          exact if_pos hp
        rw [hstep]
        cases n with
        | zero => simpa using h
        | succ m =>
          rw [List.take_succ_cons, List.any_cons]
          rw [show pyIsSpace '\n' = true from by decide, Bool.true_or]
      · have hstep : replaceAllF [Char.ofNat 13, '\n'] ['\n'] (f + 1) (c :: t) =
            c :: replaceAllF [Char.ofNat 13, '\n'] ['\n'] f t := by
          rw [replaceAllF]
          exact if_neg hp
        rw [hstep]
        cases n with
        | zero => simpa using h
        | succ m =>
          rw [List.take_succ_cons, List.any_cons] at h ⊢
          simp only [Bool.or_eq_true] at h
          rcases h with h | h
          · rw [h, Bool.true_or]
          · rw [ih t m h, Bool.or_true]

theorem replaceCrlf_head_no_match (fuel : Nat) (c : Char) (t : List Char)
    (h : matchAt60 (c :: t) = false) :
    matchAt60 (c :: replaceAllF [Char.ofNat 13, '\n'] ['\n'] fuel t) = false := by
  by_cases hc : pyIsSpace c = true
  · exact matchAt60_cons_space _ hc
  · have hc' : pyIsSpace c = false := by
      cases he : pyIsSpace c
      · rfl
      · exact absurd he hc
    by_cases hlen : 60 ≤ t.length
    · have hany := matchAt60_cons_false_any_space hc' hlen h
      have hany2 := replaceCrlf_any_space fuel t 60 hany
      apply matchAt60_false_of_any_space
      have ht : (c :: replaceAllF [Char.ofNat 13, '\n'] ['\n'] fuel t).take 61 =
          c :: (replaceAllF [Char.ofNat 13, '\n'] ['\n'] fuel t).take 60 :=
        List.take_succ_cons
      rw [ht, List.any_cons, hany2, Bool.or_true]
    · apply matchAt60_false_of_short
      have := replaceAllF_length_le [Char.ofNat 13, '\n'] ['\n'] (by decide) fuel t
      simp only [List.length_cons]
      omega

theorem ok60_replaceCrlf :
    ∀ fuel (l : List Char), ok60 l = true →
    ok60 (replaceAllF [Char.ofNat 13, '\n'] ['\n'] fuel l) = true := by
  intro fuel
  induction fuel with
  | zero => intro l h; exact h
  | succ f ih =>
    intro l h
    cases l with
    | nil => rfl
    | cons c t =>
      simp only [ok60, Bool.and_eq_true, Bool.not_eq_true'] at h
      by_cases hp : pyStartsWith [Char.ofNat 13, '\n'] (c :: t) = true
      · cases t with
        | nil => exact absurd hp (by simp [pyStartsWith])
        | cons d t' =>
          have hstep : replaceAllF [Char.ofNat 13, '\n'] ['\n'] (f + 1) (c :: d :: t') =
              '\n' :: replaceAllF [Char.ofNat 13, '\n'] ['\n'] f t' := by
            rw [replaceAllF]
            exact if_pos hp
          rw [hstep]
          simp only [ok60]
          rw [matchAt60_cons_space _ (by decide)]
          have ht' : ok60 t' = true := by
            have := h.2
            simp only [ok60, Bool.and_eq_true] at this
            exact this.2
          rw [ih t' ht']
          rfl
      · have hstep : replaceAllF [Char.ofNat 13, '\n'] ['\n'] (f + 1) (c :: t) =
            c :: replaceAllF [Char.ofNat 13, '\n'] ['\n'] f t := by
          rw [replaceAllF]
          exact if_neg hp
        rw [hstep]
        simp only [ok60]
        rw [replaceCrlf_head_no_match f c t h.1]
        rw [ih t h.2]
        rfl

theorem matchAt60_map_eq (f : Char → Char)
    (hsp : ∀ c, pyIsSpace (f c) = pyIsSpace c) (l : List Char) :
    matchAt60 (l.map f) = matchAt60 l := by
  unfold matchAt60
  rw [← List.map_take, List.length_map, List.all_map]
  have h2 : ((fun c => !pyIsSpace c) ∘ f) = (fun c => !pyIsSpace c) := by
    funext c
    simp [Function.comp, hsp]
  rw [h2]

theorem ok60_map (f : Char → Char)
    (hsp : ∀ c, pyIsSpace (f c) = pyIsSpace c) :
    ∀ l : List Char, ok60 l = true → ok60 (l.map f) = true := by
  intro l
  induction l with
  | nil => intro _; rfl
  | cons c t ih =>
    intro h
    simp only [ok60, Bool.and_eq_true, Bool.not_eq_true'] at h
    simp only [List.map_cons, ok60]
    have hm : matchAt60 (f c :: t.map f) = false := by
      have := matchAt60_map_eq f hsp (c :: t)
      rw [List.map_cons] at this
      rw [this, h.1]
    rw [hm, ih h.2]
    rfl

theorem crSpacePres :
    ∀ c, pyIsSpace (if c = Char.ofNat 13 then '\n' else c) = pyIsSpace c := by
  intro c
  by_cases hc : c = Char.ofNat 13
  · rw [if_pos hc, hc]
    decide
  · rw [if_neg hc]

theorem normEOL_ok60 {l : List Char} (h : ok60 l = true) :
    ok60 (normEOL l) = true := by
  unfold normEOL
  exact ok60_map _ crSpacePres _ (ok60_replaceCrlf _ l h)

theorem normEOL_no_cr (l : List Char) : Char.ofNat 13 ∉ normEOL l := by
  unfold normEOL
  intro h
  rcases List.mem_map.mp h with ⟨a, _, hfa⟩
  by_cases ha : a = Char.ofNat 13
  · rw [if_pos ha] at hfa
    exact absurd hfa (by decide)
  · rw [if_neg ha] at hfa
    exact ha hfa

theorem mem_normEOL {l : List Char} {c : Char} (h : c ∈ normEOL l) :
    c ∈ l ∨ c = '\n' := by
  unfold normEOL at h
  rcases List.mem_map.mp h with ⟨a, ha, hfa⟩
  rcases mem_replaceAll ha with hm | hm
  · by_cases haCR : a = Char.ofNat 13
    · rw [if_pos haCR] at hfa
      exact Or.inr hfa.symm
    · rw [if_neg haCR] at hfa
      exact Or.inl (hfa ▸ hm)
  · simp only [List.mem_singleton] at hm
    subst hm
    rw [if_neg (by decide)] at hfa
    exact Or.inr hfa.symm

theorem replaceAllF_id_of_head_not_mem (a : Char) (p rep : List Char) :
    ∀ fuel (l : List Char), a ∉ l → replaceAllF (a :: p) rep fuel l = l := by
  intro fuel
  induction fuel with
  | zero => intro l _; rfl
  | succ f ih =>
    intro l hl
    cases l with
    | nil => rfl
    | cons c t =>
      have hp : pyStartsWith (a :: p) (c :: t) = false := by
        have hac : (a == c) = false := by
          rw [beq_eq_false_iff_ne]
          intro he
          exact hl (by rw [he]; exact List.mem_cons_self _ _)
        simp only [pyStartsWith, hac, Bool.false_and]
      have hstep : replaceAllF (a :: p) rep (f + 1) (c :: t) =
          c :: replaceAllF (a :: p) rep f t := by
        rw [replaceAllF]
        exact if_neg (by rw [hp]; simp)
      rw [hstep, ih t (fun hmem => hl (List.mem_cons_of_mem _ hmem))]

theorem map_id_of_fixed {f : Char → Char} :
    ∀ l : List Char, (∀ c ∈ l, f c = c) → l.map f = l := by
  intro l
  induction l with
  | nil => intro _; rfl
  | cons c t ih =>
    intro h
    rw [List.map_cons, h c (List.mem_cons_self _ _), ih (fun x hx => h x (List.mem_cons_of_mem _ hx))]

theorem normEOL_id {l : List Char} (h : Char.ofNat 13 ∉ l) : normEOL l = l := by
  unfold normEOL
  have h1 : replaceAll l [Char.ofNat 13, '\n'] ['\n'] = l :=
    replaceAllF_id_of_head_not_mem _ _ _ _ l h
  rw [h1]
  apply map_id_of_fixed
  intro c hc
  rw [if_neg]
  intro he
  exact h (he ▸ hc)

theorem not_mem_replaceAllF_self (a : Char) (d : List Char) (hd : a ∉ d) :
    ∀ fuel (l : List Char), l.length < fuel → a ∉ replaceAllF [a] d fuel l := by
  intro fuel
  induction fuel with
  | zero => intro l hf; exact absurd hf (by omega)
  | succ f ih =>
    intro l hf
    cases l with
    | nil => simp [replaceAllF]
    | cons c t =>
      by_cases hp : pyStartsWith [a] (c :: t) = true
      · have hstep : replaceAllF [a] d (f + 1) (c :: t) =
            d ++ replaceAllF [a] d f t := by
          rw [replaceAllF]
          rw [if_pos hp]
          rfl
        rw [hstep]
        intro hmem
        rcases List.mem_append.mp hmem with hmem | hmem
        · exact hd hmem
        · exact ih t (by simp at hf; omega) hmem
      · have hca : ¬(a = c) := by
          intro he
          apply hp
          simp [pyStartsWith, he]
        have hstep : replaceAllF [a] d (f + 1) (c :: t) =
            c :: replaceAllF [a] d f t := by
          rw [replaceAllF]
          exact if_neg hp
        rw [hstep]
        intro hmem
        rcases List.mem_cons.mp hmem with hmem | hmem
        · exact hca hmem
        · exact ih t (by simp at hf; omega) hmem

theorem not_mem_fold (c : Char) :
    ∀ (d : List (Char × List Char)) (l : List Char), c ∉ l →
    (∀ q ∈ d, c ∉ q.2) →
    c ∉ d.foldl (fun acc p => replaceAll acc [p.1] p.2) l := by
  intro d
  induction d with
  | nil => intro l hl _; exact hl
  | cons q d ih =>
    intro l hl hd
    simp only [List.foldl_cons]
    apply ih
    · intro hmem
      rcases mem_replaceAll hmem with h | h
      · exact hl h
      · exact hd q (List.mem_cons_self _ _) h
    · intro r hr
      exact hd r (List.mem_cons_of_mem _ hr)

theorem src_not_mem_foldRepl :
    ∀ (d : List (Char × List Char)) (l : List Char),
    (∀ p ∈ d, ∀ q ∈ d, p.1 ∉ q.2) →
    ∀ q ∈ d, q.1 ∉ d.foldl (fun acc p => replaceAll acc [p.1] p.2) l := by
  intro d
  induction d with
  | nil => intro l _ q hq; simp at hq
  | cons p d ih =>
    intro l hfree q hq
    simp only [List.foldl_cons]
    rcases List.mem_cons.mp hq with hq | hq
    · subst hq
      apply not_mem_fold
      · exact not_mem_replaceAllF_self _ _
          (hfree q (List.mem_cons_self _ _) q (List.mem_cons_self _ _)) _ l (by omega)
      · intro r hr
        exact hfree q (List.mem_cons_self _ _) r (List.mem_cons_of_mem _ hr)
    · exact ih _
        (fun p' hp' q' hq' =>
          hfree p' (List.mem_cons_of_mem _ hp') q' (List.mem_cons_of_mem _ hq'))
        q hq

theorem foldRepl_id :
    ∀ (d : List (Char × List Char)) (l : List Char),
    (∀ q ∈ d, q.1 ∉ l) →
    d.foldl (fun acc p => replaceAll acc [p.1] p.2) l = l := by
  intro d
  induction d with
  | nil => intro l _; rfl
  | cons q d ih =>
    intro l hl
    simp only [List.foldl_cons]
    have h1 : replaceAll l [q.1] q.2 = l :=
      replaceAllF_id_of_head_not_mem _ _ _ _ l (hl q (List.mem_cons_self _ _))
    rw [h1]
    exact ih l (fun r hr => hl r (List.mem_cons_of_mem _ hr))

theorem dict_src_not_in_dst :
    ∀ p ∈ replacementDict, ∀ q ∈ replacementDict, p.1 ∉ q.2 := by decide

theorem dict_dst_lt256 :
    ∀ p ∈ replacementDict, ∀ c ∈ p.2, c.toNat < 256 := by decide

theorem dict_src_ne_space_nl :
    ∀ p ∈ replacementDict, p.1 ≠ ' ' ∧ p.1 ≠ '\n' := by decide

theorem latin1Filter_id {l : List Char} (h : ∀ c ∈ l, c.toNat < 256) :
    latin1Filter l = l := by
  unfold latin1Filter
  apply List.filter_eq_self.mpr
  intro a ha
  simpa using h a ha

/-- C4: `sanitize_text_for_pdf` is idempotent on every string whose
characters are printable ASCII/Latin-1. -/
theorem c4_sanitize_idempotent (x : List Char)
    (hx : ∀ c ∈ x, printableLatin1 c = true) :
    sanitize_text_for_pdf (sanitize_text_for_pdf x) = sanitize_text_for_pdf x := by
  have h256 : ∀ c ∈ x, c.toNat < 256 := by
    intro c hc
    have h := hx c hc
    unfold printableLatin1 at h
    simp only [Bool.or_eq_true, Bool.and_eq_true, decide_eq_true_eq] at h
    omega
  by_cases hnil : x = []
  · rw [hnil]
    rfl
  · have hA256 : ∀ c ∈ applyReplacements x, c.toNat < 256 := by
      intro c hc
      rcases mem_applyReplacements hc with h | ⟨p, hp, hcp⟩
      · exact h256 c h
      · exact dict_dst_lt256 p hp c hcp
    have hB256 : ∀ c ∈ breakRuns (applyReplacements x), c.toNat < 256 := by
      intro c hc
      rcases mem_breakRuns hc with h | h
      · exact hA256 c h
      · rw [h]; decide
    have hfB : latin1Filter (breakRuns (applyReplacements x)) =
        breakRuns (applyReplacements x) := latin1Filter_id hB256
    have hsan1 : sanitize_text_for_pdf x =
        normEOL (breakRuns (applyReplacements x)) := by
      unfold sanitize_text_for_pdf
      rw [if_neg hnil, hfB]
    have hok : ok60 (normEOL (breakRuns (applyReplacements x))) = true :=
      normEOL_ok60 (ok60_breakRuns (applyReplacements x))
    have hD256 : ∀ c ∈ normEOL (breakRuns (applyReplacements x)), c.toNat < 256 := by
      intro c hc
      rcases mem_normEOL hc with h | h
      · exact hB256 c h
      · rw [h]; decide
    have hnoCR : Char.ofNat 13 ∉ normEOL (breakRuns (applyReplacements x)) :=
      normEOL_no_cr _
    have hnosrc : ∀ q ∈ replacementDict,
        q.1 ∉ normEOL (breakRuns (applyReplacements x)) := by
      intro q hq hmem
      rcases mem_normEOL hmem with h | h
      · rcases mem_breakRuns h with h' | h'
        · exact src_not_mem_foldRepl replacementDict x dict_src_not_in_dst q hq h'
        · exact (dict_src_ne_space_nl q hq).1 h'
      · exact (dict_src_ne_space_nl q hq).2 h
    rw [hsan1]
    by_cases hDnil : normEOL (breakRuns (applyReplacements x)) = []
    · rw [hDnil]
      rfl
    · unfold sanitize_text_for_pdf
      rw [if_neg hDnil]
      have h1 : applyReplacements (normEOL (breakRuns (applyReplacements x))) =
          normEOL (breakRuns (applyReplacements x)) := by
        unfold applyReplacements
        exact foldRepl_id replacementDict _ hnosrc
      rw [h1, breakRuns_of_ok60 hok, latin1Filter_id hD256, normEOL_id hnoCR]

/-- Witness for C4 at a concrete printable Latin-1 input. -/
theorem c4_witness :
    (∀ c ∈ chars "ab £·x no", printableLatin1 c = true) ∧
    sanitize_text_for_pdf (sanitize_text_for_pdf (chars "ab £·x no")) =
      sanitize_text_for_pdf (chars "ab £·x no") := by
  constructor
  · decide
  · exact c4_sanitize_idempotent _ (by decide)

end Bot3
